import Mathlib

/-!
Verification of the number-management gRPC server (`src/Server/src/server.cpp`).

The server keeps a `std::map<uint64_t, time_t> numbers_` (number → insertion
timestamp) guarded by one mutex, and exposes four handlers: `Insert`, `Delete`,
`List`, `Clear`.  We embed the map as an association list sorted strictly
ascending by key (the iteration/storage discipline of `std::map`), the
timestamps as `Int` (`time_t` / `int64`), and each handler as a pure function
from the store and the request fields to the new store, the response message
and the returned `grpc::Status`.  Wall-clock reads (`time(nullptr)`) become an
explicit `now : Int` argument.
-/

/-- Modulus of the `uint64_t` domain of stored numbers. -/
def UINT64_MOD : Nat := 2 ^ 64

/-- `numbermgmt.Timestamp` protobuf message: a single `unix_seconds : int64`. -/
structure Timestamp where
  unix_seconds : Int
deriving DecidableEq, Repr

/-- `numbermgmt.Entry`: a stored number together with its insertion timestamp. -/
structure Entry where
  number : Nat
  timestamp : Timestamp
deriving DecidableEq, Repr

/-- `numbermgmt.OperationResult`: success flag, message, optional echoed entry. -/
structure OperationResult where
  success : Bool
  message : String
  entry : Option Entry
deriving DecidableEq, Repr

/-- `numbermgmt.NumberListResponse`: count, message and the listed entries. -/
structure NumberListResponse where
  count : Nat
  message : String
  entries : List Entry
deriving DecidableEq, Repr

/-- The gRPC status codes a handler could return (the code only ever uses OK). -/
inductive StatusCode where
  | OK
  | CANCELLED
  | UNKNOWN
deriving DecidableEq, Repr

/-- `grpc::Status`, reduced to its code. -/
structure GrpcStatus where
  code : StatusCode
deriving DecidableEq, Repr

/-- `grpc::Status::OK`. -/
def GrpcStatus.Ok : GrpcStatus := { code := StatusCode.OK }

/-- The server state `std::map<uint64_t, time_t> numbers_`, embedded as an
association list kept sorted strictly ascending by key. -/
abbrev Store := List (Nat × Int)

/-- `make_timestamp`: wrap a `time_t` into a protobuf `Timestamp`
(`server.cpp` lines 22-26). -/
def make_timestamp (t : Int) : Timestamp := { unix_seconds := t }

/-- `std::map::find` / containment test: the value stored at key `num`. -/
def mapFind? : Store → Nat → Option Int
  | [], _ => none
  | (k, v) :: rest, num => if num = k then some v else mapFind? rest num

/-- `std::map::try_emplace(num, t)` on the sorted association list: returns the
new store, the value at the resulting iterator (`it->second`), and the
`inserted` flag.  An existing key keeps its old value. -/
def tryEmplace : Store → Nat → Int → Store × Int × Bool
  | [], num, t => ([(num, t)], t, true)
  | (k, v) :: rest, num, t =>
    if num < k then ((num, t) :: (k, v) :: rest, t, true)
    else if num = k then ((k, v) :: rest, v, false)
    else ((k, v) :: (tryEmplace rest num t).1,
          (tryEmplace rest num t).2.1, (tryEmplace rest num t).2.2)

/-- `std::map::erase(num)`: returns the new store and the number of erased
entries (0 or 1). -/
def mapErase : Store → Nat → Store × Nat
  | [], _ => ([], 0)
  | (k, v) :: rest, num =>
    if num = k then (rest, 1)
    else ((k, v) :: (mapErase rest num).1, (mapErase rest num).2)

/-- The loop body of `List`: one response entry per stored pair. -/
def toEntry (p : Nat × Int) : Entry :=
  { number := p.1, timestamp := make_timestamp p.2 }

/-- `NumberServiceImpl::Insert` (`server.cpp` lines 29-57): reject 0, otherwise
`try_emplace` with the current time; duplicates fail, fresh numbers succeed and
echo the created entry.  Always returns `grpc::Status::OK`. -/
def NumberServiceImpl.Insert (s : Store) (reqNumber : Nat) (now : Int) :
    Store × OperationResult × GrpcStatus :=
  let num := reqNumber
  if num = 0 then
    (s, { success := false,
          message := "Only positive integers (≥1) are allowed",
          entry := none }, GrpcStatus.Ok)
  else
    let r := tryEmplace s num now
    if r.2.2 = false then
      (r.1, { success := false,
              message := "Number " ++ toString num ++ " already exists",
              entry := none }, GrpcStatus.Ok)
    else
      (r.1, { success := true,
              message := "Inserted " ++ toString num ++ " at " ++ toString r.2.1,
              entry := some { number := num, timestamp := make_timestamp r.2.1 } },
       GrpcStatus.Ok)

/-- `NumberServiceImpl::Delete` (`server.cpp` lines 60-77): erase and report.
Always returns `grpc::Status::OK`. -/
def NumberServiceImpl.Delete (s : Store) (reqNumber : Nat) :
    Store × OperationResult × GrpcStatus :=
  let num := reqNumber
  let r := mapErase s num
  if r.2 ≠ 0 then
    (r.1, { success := true,
            message := "Deleted " ++ toString num,
            entry := none }, GrpcStatus.Ok)
  else
    (r.1, { success := false,
            message := "Number " ++ toString num ++ " not found",
            entry := none }, GrpcStatus.Ok)

/-- `NumberServiceImpl::List` (`server.cpp` lines 79-94): count, one entry per
stored pair in map iteration order, and a summary message.  Always returns
`grpc::Status::OK`. -/
def NumberServiceImpl.List (s : Store) :
    Store × NumberListResponse × GrpcStatus :=
  (s, { count := s.length,
        message := "Current count: " ++ toString s.length,
        entries := s.map toEntry }, GrpcStatus.Ok)

/-- `NumberServiceImpl::Clear` (`server.cpp` lines 96-109): empty the map and
report how many entries were present.  Always returns `grpc::Status::OK`. -/
def NumberServiceImpl.Clear (s : Store) :
    Store × OperationResult × GrpcStatus :=
  ([], { success := true,
         message := "Cleared " ++ toString s.length ++ " numbers",
         entry := none }, GrpcStatus.Ok)

/-- One server call, abstracting over the request payloads. -/
inductive ServerOp where
  | insert (number : Nat) (now : Int)
  | delete (number : Nat)
  | list
  | clear

/-- The store after handling one call. -/
def stepOp (s : Store) : ServerOp → Store
  | ServerOp.insert n t => (NumberServiceImpl.Insert s n t).1
  | ServerOp.delete n => (NumberServiceImpl.Delete s n).1
  | ServerOp.list => (NumberServiceImpl.List s).1
  | ServerOp.clear => (NumberServiceImpl.Clear s).1

/-- The store reached from the empty initial map by a sequence of calls. -/
def execOps (ops : List ServerOp) : Store := ops.foldl stepOp []

/-- The store reached from the empty initial map by Insert calls only
(each call is a request number plus the wall-clock value read for it). -/
def execInserts (calls : List (Nat × Int)) : Store :=
  execOps (calls.map (fun c => ServerOp.insert c.1 c.2))

/-- The `std::map` representation invariant: keys strictly increase. -/
def SortedStore (s : Store) : Prop :=
  List.Pairwise (fun a b : Nat × Int => a.1 < b.1) s

/-- Client-side validation for `insert <number>` (`client.cpp` lines 211-215):
the parsed argument is forwarded to the server only when it exceeds 1. -/
def clientInsertForwards (num : Nat) : Bool :=
  if num ≤ 1 then false else true

/-- Client-side validation for `delete <number>` (`client.cpp` lines 229-233):
identical floor to insert. -/
def clientDeleteForwards (num : Nat) : Bool :=
  if num ≤ 1 then false else true

/-! ### Lemmas about the association-list map operations -/

theorem mapFind?_eq_none_of_not_mem (s : Store) (num : Nat)
    (h : num ∉ s.map Prod.fst) : mapFind? s num = none := by
  induction s with
  | nil => rfl
  | cons p rest ih =>
    obtain ⟨k, v⟩ := p
    simp only [List.map_cons, List.mem_cons] at h
    push_neg at h
    simp only [mapFind?]
    rw [if_neg h.1]
    exact ih h.2

theorem mem_keys_of_mapFind?_some {s : Store} {num : Nat} {t : Int}
    (h : mapFind? s num = some t) : num ∈ s.map Prod.fst := by
  induction s with
  | nil => simp [mapFind?] at h
  | cons p rest ih =>
    obtain ⟨k, v⟩ := p
    simp only [mapFind?] at h
    by_cases hk : num = k
    · simp [hk]
    · rw [if_neg hk] at h
      simp [ih h]

theorem tryEmplace_mem (s : Store) (num : Nat) (t : Int) :
    ∀ x ∈ (tryEmplace s num t).1, x ∈ s ∨ x = (num, t) := by
  induction s with
  | nil =>
    intro x hx
    simp only [tryEmplace, List.mem_singleton] at hx
    exact Or.inr hx
  | cons p rest ih =>
    obtain ⟨k, v⟩ := p
    intro x hx
    simp only [tryEmplace] at hx
    by_cases h1 : num < k
    · rw [if_pos h1] at hx
      rcases List.mem_cons.mp hx with h | h
      · exact Or.inr h
      · exact Or.inl h
    · rw [if_neg h1] at hx
      by_cases h2 : num = k
      · rw [if_pos h2] at hx
        exact Or.inl hx
      · rw [if_neg h2] at hx
        rcases List.mem_cons.mp hx with h | h
        · exact Or.inl (List.mem_cons.mpr (Or.inl h))
        · rcases ih x h with h3 | h3
          · exact Or.inl (List.mem_cons.mpr (Or.inr h3))
          · exact Or.inr h3

theorem tryEmplace_sorted (s : Store) (num : Nat) (t : Int)
    (h : SortedStore s) : SortedStore (tryEmplace s num t).1 := by
  induction s with
  | nil =>
    simp only [tryEmplace, SortedStore]
    exact List.pairwise_singleton _ _
  | cons p rest ih =>
    obtain ⟨k, v⟩ := p
    rw [SortedStore, List.pairwise_cons] at h
    obtain ⟨hk, hrest⟩ := h
    simp only [tryEmplace]
    by_cases h1 : num < k
    · rw [if_pos h1]
      rw [SortedStore, List.pairwise_cons]
      refine ⟨?_, List.Pairwise.cons hk hrest⟩
      intro b hb
      rcases List.mem_cons.mp hb with rfl | hb2
      · exact h1
      · exact lt_trans h1 (hk _ hb2)
    · rw [if_neg h1]
      by_cases h2 : num = k
      · rw [if_pos h2]
        exact List.Pairwise.cons hk hrest
      · rw [if_neg h2]
        rw [SortedStore, List.pairwise_cons]
        refine ⟨?_, ih hrest⟩
        intro b hb
        rcases tryEmplace_mem rest num t b hb with hb1 | hb1
        · exact hk _ hb1
        · subst hb1
          exact lt_of_le_of_ne (Nat.not_lt.mp h1) (Ne.symm h2)

theorem tryEmplace_of_find_some (s : Store) (num : Nat) (t tv : Int)
    (hs : SortedStore s) (hf : mapFind? s num = some tv) :
    tryEmplace s num t = (s, tv, false) := by
  induction s with
  | nil => simp [mapFind?] at hf
  | cons p rest ih =>
    obtain ⟨k, v⟩ := p
    rw [SortedStore, List.pairwise_cons] at hs
    obtain ⟨hk, hrest⟩ := hs
    simp only [mapFind?] at hf
    simp only [tryEmplace]
    by_cases h : num = k
    · subst h
      rw [if_pos rfl] at hf
      injection hf with hf
      subst hf
      rw [if_neg (lt_irrefl num), if_pos rfl]
    · rw [if_neg h] at hf
      have hmem := mem_keys_of_mapFind?_some hf
      have hkn : k < num := by
        obtain ⟨x, hx, hx1⟩ := List.mem_map.mp hmem
        exact hx1 ▸ hk x hx
      rw [if_neg (Nat.not_lt.mpr (Nat.le_of_lt hkn)), if_neg h]
      rw [ih hrest hf]

theorem tryEmplace_inserted_of_find_none (s : Store) (num : Nat) (t : Int)
    (hf : mapFind? s num = none) : (tryEmplace s num t).2.2 = true := by
  induction s with
  | nil => rfl
  | cons p rest ih =>
    obtain ⟨k, v⟩ := p
    simp only [mapFind?] at hf
    by_cases h : num = k
    · rw [if_pos h] at hf
      exact absurd hf (by simp)
    · rw [if_neg h] at hf
      simp only [tryEmplace]
      by_cases h1 : num < k
      · rw [if_pos h1]
      · rw [if_neg h1, if_neg h]
        exact ih hf

theorem tryEmplace_value_of_find_none (s : Store) (num : Nat) (t : Int)
    (hf : mapFind? s num = none) : (tryEmplace s num t).2.1 = t := by
  induction s with
  | nil => rfl
  | cons p rest ih =>
    obtain ⟨k, v⟩ := p
    simp only [mapFind?] at hf
    by_cases h : num = k
    · rw [if_pos h] at hf
      exact absurd hf (by simp)
    · rw [if_neg h] at hf
      simp only [tryEmplace]
      by_cases h1 : num < k
      · rw [if_pos h1]
      · rw [if_neg h1, if_neg h]
        exact ih hf

theorem mapFind?_tryEmplace_self (s : Store) (num : Nat) (t : Int)
    (hf : mapFind? s num = none) :
    mapFind? (tryEmplace s num t).1 num = some t := by
  induction s with
  | nil => simp [tryEmplace, mapFind?]
  | cons p rest ih =>
    obtain ⟨k, v⟩ := p
    simp only [mapFind?] at hf
    by_cases h : num = k
    · rw [if_pos h] at hf
      exact absurd hf (by simp)
    · rw [if_neg h] at hf
      simp only [tryEmplace]
      by_cases h1 : num < k
      · rw [if_pos h1]
        simp [mapFind?]
      · rw [if_neg h1, if_neg h]
        simp only [mapFind?]
        rw [if_neg h]
        exact ih hf

theorem mapFind?_tryEmplace_other (s : Store) (num : Nat) (t : Int)
    (j : Nat) (hj : j ≠ num) :
    mapFind? (tryEmplace s num t).1 j = mapFind? s j := by
  induction s with
  | nil =>
    simp only [tryEmplace, mapFind?]
    rw [if_neg hj]
  | cons p rest ih =>
    obtain ⟨k, v⟩ := p
    simp only [tryEmplace]
    by_cases h1 : num < k
    · rw [if_pos h1]
      simp only [mapFind?]
      rw [if_neg hj]
    · rw [if_neg h1]
      by_cases h2 : num = k
      · rw [if_pos h2]
      · rw [if_neg h2]
        simp only [mapFind?]
        by_cases h3 : j = k
        · rw [if_pos h3, if_pos h3]
        · rw [if_neg h3, if_neg h3]
          exact ih

theorem mapErase_of_find_none (s : Store) (num : Nat)
    (hf : mapFind? s num = none) : mapErase s num = (s, 0) := by
  induction s with
  | nil => rfl
  | cons p rest ih =>
    obtain ⟨k, v⟩ := p
    simp only [mapFind?] at hf
    by_cases h : num = k
    · rw [if_pos h] at hf
      exact absurd hf (by simp)
    · rw [if_neg h] at hf
      simp only [mapErase]
      rw [if_neg h, ih hf]

theorem mapErase_count_of_find_some (s : Store) (num : Nat) (t : Int)
    (hf : mapFind? s num = some t) : (mapErase s num).2 = 1 := by
  induction s with
  | nil => simp [mapFind?] at hf
  | cons p rest ih =>
    obtain ⟨k, v⟩ := p
    simp only [mapFind?] at hf
    simp only [mapErase]
    by_cases h : num = k
    · rw [if_pos h]
    · rw [if_neg h] at hf
      rw [if_neg h]
      exact ih hf

theorem mapErase_sublist (s : Store) (num : Nat) :
    (mapErase s num).1.Sublist s := by
  induction s with
  | nil => exact List.Sublist.refl _
  | cons p rest ih =>
    obtain ⟨k, v⟩ := p
    simp only [mapErase]
    by_cases h : num = k
    · rw [if_pos h]
      exact List.sublist_cons_self _ _
    · rw [if_neg h]
      exact List.Sublist.cons₂ _ ih

theorem mapErase_sorted (s : Store) (num : Nat)
    (h : SortedStore s) : SortedStore (mapErase s num).1 :=
  List.Pairwise.sublist (mapErase_sublist s num) h

theorem sortedStore_keys_nodup (s : Store) (h : SortedStore s) :
    (s.map Prod.fst).Nodup := by
  rw [List.Nodup, List.pairwise_map]
  exact h.imp (fun hlt => Nat.ne_of_lt hlt)

theorem mapFind?_mapErase_self (s : Store) (num : Nat)
    (hnd : (s.map Prod.fst).Nodup) :
    mapFind? (mapErase s num).1 num = none := by
  induction s with
  | nil => rfl
  | cons p rest ih =>
    obtain ⟨k, v⟩ := p
    simp only [List.map_cons, List.nodup_cons] at hnd
    obtain ⟨hk, hrest⟩ := hnd
    simp only [mapErase]
    by_cases h : num = k
    · rw [if_pos h]
      subst h
      exact mapFind?_eq_none_of_not_mem rest num hk
    · rw [if_neg h]
      simp only [mapFind?]
      rw [if_neg h]
      exact ih hrest

theorem mapFind?_mapErase_other (s : Store) (num : Nat)
    (j : Nat) (hj : j ≠ num) :
    mapFind? (mapErase s num).1 j = mapFind? s j := by
  induction s with
  | nil => rfl
  | cons p rest ih =>
    obtain ⟨k, v⟩ := p
    simp only [mapErase]
    by_cases h : num = k
    · rw [if_pos h]
      simp only [mapFind?]
      rw [if_neg (h ▸ hj)]
    · rw [if_neg h]
      simp only [mapFind?]
      by_cases h3 : j = k
      · rw [if_pos h3, if_pos h3]
      · rw [if_neg h3, if_neg h3]
        exact ih

/-! ### The sortedness invariant holds in every reachable state -/

theorem Insert_store_eq (s : Store) (num : Nat) (now : Int) :
    (NumberServiceImpl.Insert s num now).1 =
      if num = 0 then s else (tryEmplace s num now).1 := by
  simp only [NumberServiceImpl.Insert]
  by_cases h : num = 0
  · rw [if_pos h, if_pos h]
  · rw [if_neg h, if_neg h]
    by_cases h2 : (tryEmplace s num now).2.2 = false
    · rw [if_pos h2]
    · rw [if_neg h2]

theorem Delete_store_eq (s : Store) (num : Nat) :
    (NumberServiceImpl.Delete s num).1 = (mapErase s num).1 := by
  simp only [NumberServiceImpl.Delete]
  by_cases h : (mapErase s num).2 ≠ 0
  · rw [if_pos h]
  · rw [if_neg h]

theorem stepOp_sorted (s : Store) (op : ServerOp)
    (h : SortedStore s) : SortedStore (stepOp s op) := by
  cases op with
  | insert n t =>
    simp only [stepOp, Insert_store_eq]
    by_cases h0 : n = 0
    · rw [if_pos h0]; exact h
    · rw [if_neg h0]; exact tryEmplace_sorted s n t h
  | delete n =>
    simp only [stepOp, Delete_store_eq]
    exact mapErase_sorted s n h
  | list => exact h
  | clear => exact List.Pairwise.nil

theorem foldl_stepOp_sorted (ops : List ServerOp) :
    ∀ s : Store, SortedStore s → SortedStore (ops.foldl stepOp s) := by
  induction ops with
  | nil => intro s h; exact h
  | cons op rest ih =>
    intro s h
    exact ih _ (stepOp_sorted s op h)

theorem execOps_sorted (ops : List ServerOp) : SortedStore (execOps ops) :=
  foldl_stepOp_sorted ops [] List.Pairwise.nil

theorem execInserts_sorted (calls : List (Nat × Int)) :
    SortedStore (execInserts calls) :=
  execOps_sorted _

/-! ### Filtering the listed entries at one key -/

theorem filter_entries_of_not_mem (s : Store) (num : Nat)
    (h : num ∉ s.map Prod.fst) :
    (s.map toEntry).filter (fun e => e.number == num) = [] := by
  induction s with
  | nil => rfl
  | cons p rest ih =>
    obtain ⟨k, v⟩ := p
    simp only [List.map_cons, List.mem_cons] at h
    push_neg at h
    have hne : ((toEntry (k, v)).number == num) = false := by
      simp [toEntry, Ne.symm h.1]
    simp only [List.map_cons, List.filter_cons]
    rw [if_neg (ne_true_of_eq_false hne)]
    exact ih h.2

theorem filter_entries_of_find_some (s : Store) (num : Nat) (t : Int)
    (hnd : (s.map Prod.fst).Nodup) (hf : mapFind? s num = some t) :
    (s.map toEntry).filter (fun e => e.number == num) = [toEntry (num, t)] := by
  induction s with
  | nil => simp [mapFind?] at hf
  | cons p rest ih =>
    obtain ⟨k, v⟩ := p
    simp only [List.map_cons, List.nodup_cons] at hnd
    obtain ⟨hk, hrest⟩ := hnd
    simp only [mapFind?] at hf
    simp only [List.map_cons, List.filter_cons]
    by_cases h : num = k
    · rw [if_pos h] at hf
      injection hf with hf
      subst h
      subst hf
      have hyes : ((toEntry (num, v)).number == num) = true := by simp [toEntry]
      rw [if_pos hyes, filter_entries_of_not_mem rest num hk]
    · rw [if_neg h] at hf
      have hne : ((toEntry (k, v)).number == num) = false := by
        simp [toEntry, Ne.symm h]
      rw [if_neg (ne_true_of_eq_false hne)]
      exact ih hrest hf

/-- A string starting with a nonempty literal is not empty. -/
theorem append_ne_empty_of_left (a b : String) (h : a.length ≠ 0) :
    a ++ b ≠ "" := by
  intro hab
  have hlen : (a ++ b).length = 0 := by rw [hab]; rfl
  rw [String.length_append] at hlen
  omega

/-! ### Branch evaluation of the handlers -/

theorem Insert_of_find_none (s : Store) (num : Nat) (now : Int)
    (h0 : num ≠ 0) (hf : mapFind? s num = none) :
    NumberServiceImpl.Insert s num now =
      ((tryEmplace s num now).1,
       { success := true,
         message := "Inserted " ++ toString num ++ " at " ++ toString now,
         entry := some { number := num, timestamp := make_timestamp now } },
       GrpcStatus.Ok) := by
  have h1 := tryEmplace_inserted_of_find_none s num now hf
  have h2 := tryEmplace_value_of_find_none s num now hf
  simp only [NumberServiceImpl.Insert]
  rw [if_neg h0, if_neg (by simp [h1]), h2]

theorem Insert_duplicate (s : Store) (num : Nat) (now t : Int)
    (hs : SortedStore s) (hf : mapFind? s num = some t) :
    (NumberServiceImpl.Insert s num now).1 = s ∧
    (NumberServiceImpl.Insert s num now).2.1.success = false := by
  by_cases h0 : num = 0
  · subst h0
    exact ⟨rfl, rfl⟩
  · have he := tryEmplace_of_find_some s num now t hs hf
    simp only [NumberServiceImpl.Insert]
    rw [if_neg h0, he]
    exact ⟨rfl, rfl⟩

theorem Delete_of_find_none (s : Store) (num : Nat)
    (hf : mapFind? s num = none) :
    NumberServiceImpl.Delete s num =
      (s, { success := false,
            message := "Number " ++ toString num ++ " not found",
            entry := none }, GrpcStatus.Ok) := by
  simp only [NumberServiceImpl.Delete]
  rw [mapErase_of_find_none s num hf]
  simp

theorem Delete_of_find_some (s : Store) (num : Nat) (t : Int)
    (hf : mapFind? s num = some t) :
    NumberServiceImpl.Delete s num =
      ((mapErase s num).1,
       { success := true, message := "Deleted " ++ toString num, entry := none },
       GrpcStatus.Ok) := by
  simp only [NumberServiceImpl.Delete]
  rw [if_pos (show (mapErase s num).2 ≠ 0 by
        rw [mapErase_count_of_find_some s num t hf]; exact one_ne_zero)]

theorem append_length_pos (a b : String) (h : 0 < a.length) :
    0 < (a ++ b).length := by
  rw [String.length_append]
  omega

/-! ### Claim theorems -/

/-- Claim C1: for every sequence of Insert calls the store keys are duplicate
free, and an Insert of a number already present returns success=false and
leaves the store (in particular the stored timestamp for that number)
unchanged. -/
theorem insert_uniqueness_invariant (calls : List (Nat × Int))
    (num : Nat) (now t : Int)
    (hpresent : mapFind? (execInserts calls) num = some t) :
    ((execInserts calls).map Prod.fst).Nodup ∧
    (NumberServiceImpl.Insert (execInserts calls) num now).1 =
      execInserts calls ∧
    (NumberServiceImpl.Insert (execInserts calls) num now).2.1.success = false ∧
    mapFind? (NumberServiceImpl.Insert (execInserts calls) num now).1 num =
      some t := by
  have hs := execInserts_sorted calls
  have hd := Insert_duplicate (execInserts calls) num now t hs hpresent
  exact ⟨sortedStore_keys_nodup _ hs, hd.1, hd.2, by rw [hd.1]; exact hpresent⟩

/-- Witness for C1: after inserting 5 at time 100, a second Insert of 5 fails
and leaves the stored timestamp 100 in place. -/
theorem insert_uniqueness_invariant_witness :
    ((execInserts [(5, 100)]).map Prod.fst).Nodup ∧
    (NumberServiceImpl.Insert (execInserts [(5, 100)]) 5 7).1 =
      execInserts [(5, 100)] ∧
    (NumberServiceImpl.Insert (execInserts [(5, 100)]) 5 7).2.1.success = false ∧
    mapFind? (NumberServiceImpl.Insert (execInserts [(5, 100)]) 5 7).1 5 =
      some 100 :=
  insert_uniqueness_invariant [(5, 100)] 5 7 100 (by decide)

/-- Claim C2: after any sequence of calls, List returns exactly the stored
entries, in ascending order of number, with count equal to the number of
stored entries and the summary message; on the empty store it returns
count 0 and no entries. -/
theorem list_contract (ops : List ServerOp) :
    List.Pairwise (fun a b : Nat => a < b)
      ((NumberServiceImpl.List (execOps ops)).2.1.entries.map Entry.number) ∧
    (NumberServiceImpl.List (execOps ops)).2.1.entries =
      (execOps ops).map toEntry ∧
    (NumberServiceImpl.List (execOps ops)).2.1.count = (execOps ops).length ∧
    (NumberServiceImpl.List (execOps ops)).2.1.message =
      "Current count: " ++ toString (execOps ops).length ∧
    (NumberServiceImpl.List ([] : Store)).2.1.count = 0 ∧
    (NumberServiceImpl.List ([] : Store)).2.1.entries = [] := by
  refine ⟨?_, rfl, rfl, rfl, rfl, rfl⟩
  have hs := execOps_sorted ops
  simp only [NumberServiceImpl.List, List.map_map]
  rw [List.pairwise_map]
  exact hs

/-- Claim C3: Insert(0) always fails with the positive-integers message and
does not change the store, whatever the store contents. -/
theorem insert_zero_rejected (s : Store) (now : Int) :
    (NumberServiceImpl.Insert s 0 now).1 = s ∧
    (NumberServiceImpl.Insert s 0 now).2.1.success = false ∧
    (NumberServiceImpl.Insert s 0 now).2.1.message =
      "Only positive integers (≥1) are allowed" ∧
    (NumberServiceImpl.Insert s 0 now).2.1.entry = none :=
  ⟨rfl, rfl, rfl, rfl⟩

/-- Claim C4: inserting a nonzero number that is not yet stored records the
wall-clock value read during the call, stores the pair, and returns
success=true with the created entry (number and that timestamp); all other
keys are untouched. -/
theorem insert_success_postcondition (s : Store) (num : Nat) (now : Int)
    (h0 : num ≠ 0) (habs : mapFind? s num = none) :
    (NumberServiceImpl.Insert s num now).2.1.success = true ∧
    (NumberServiceImpl.Insert s num now).2.1.entry =
      some { number := num, timestamp := make_timestamp now } ∧
    (NumberServiceImpl.Insert s num now).2.1.message =
      "Inserted " ++ toString num ++ " at " ++ toString now ∧
    mapFind? (NumberServiceImpl.Insert s num now).1 num = some now ∧
    ∀ j : Nat, j ≠ num →
      mapFind? (NumberServiceImpl.Insert s num now).1 j = mapFind? s j := by
  have hI := Insert_of_find_none s num now h0 habs
  rw [hI]
  exact ⟨rfl, rfl, rfl, mapFind?_tryEmplace_self s num now habs,
         fun j hj => mapFind?_tryEmplace_other s num now j hj⟩

/-- Witness for C4: inserting 3 at time 77 into the store holding only 5
succeeds, echoes entry (3, 77), stores 77 under 3 and leaves key 5 alone. -/
theorem insert_success_postcondition_witness :
    (NumberServiceImpl.Insert [(5, 100)] 3 77).2.1.success = true ∧
    (NumberServiceImpl.Insert [(5, 100)] 3 77).2.1.entry =
      some { number := 3, timestamp := make_timestamp 77 } ∧
    mapFind? (NumberServiceImpl.Insert [(5, 100)] 3 77).1 3 = some 77 ∧
    mapFind? (NumberServiceImpl.Insert [(5, 100)] 3 77).1 5 =
      mapFind? [(5, 100)] 5 := by
  have h := insert_success_postcondition [(5, 100)] 3 77 (by decide) (by decide)
  exact ⟨h.1, h.2.1, h.2.2.2.1, h.2.2.2.2 5 (by decide)⟩

/-- Claim C5: Delete succeeds exactly when the number is stored, removing
that entry and no other; on an absent number it fails with the not-found
message and leaves the store untouched; a second Delete of the same number
always fails. -/
theorem delete_contract (s : Store) (num : Nat) (hsort : SortedStore s) :
    (NumberServiceImpl.Delete s num).2.1.success = (mapFind? s num).isSome ∧
    (NumberServiceImpl.Delete s num).2.1.message =
      (if (mapFind? s num).isSome then "Deleted " ++ toString num
       else "Number " ++ toString num ++ " not found") ∧
    mapFind? (NumberServiceImpl.Delete s num).1 num = none ∧
    (∀ j : Nat, j ≠ num →
      mapFind? (NumberServiceImpl.Delete s num).1 j = mapFind? s j) ∧
    (NumberServiceImpl.Delete s num).1 =
      (if (mapFind? s num).isSome then (mapErase s num).1 else s) ∧
    (NumberServiceImpl.Delete
        (NumberServiceImpl.Delete s num).1 num).2.1.success = false := by
  have hnd := sortedStore_keys_nodup s hsort
  cases hfind : mapFind? s num with
  | none =>
    have hD := Delete_of_find_none s num hfind
    refine ⟨by rw [hD]; simp, by rw [hD]; simp, ?_,
            ?_, by rw [hD]; simp, ?_⟩
    · rw [hD]; exact hfind
    · intro j hj; rw [hD]
    · rw [hD]
      show (NumberServiceImpl.Delete s num).2.1.success = false
      rw [hD]
  | some t =>
    have hD := Delete_of_find_some s num t hfind
    have hself := mapFind?_mapErase_self s num hnd
    refine ⟨by rw [hD]; simp, by rw [hD]; simp, ?_,
            ?_, by rw [hD]; simp, ?_⟩
    · rw [hD]; exact hself
    · intro j hj; rw [hD]; exact mapFind?_mapErase_other s num j hj
    · rw [hD]
      show (NumberServiceImpl.Delete (mapErase s num).1 num).2.1.success = false
      rw [Delete_of_find_none (mapErase s num).1 num hself]

/-- Witness for C5: deleting 4 from the store holding 4 and 9 succeeds,
removes only 4, and deleting 4 again fails. -/
theorem delete_contract_witness :
    (NumberServiceImpl.Delete [(4, 10), (9, 20)] 4).2.1.success =
      (mapFind? [(4, 10), (9, 20)] 4).isSome ∧
    mapFind? (NumberServiceImpl.Delete [(4, 10), (9, 20)] 4).1 4 = none ∧
    mapFind? (NumberServiceImpl.Delete [(4, 10), (9, 20)] 4).1 9 =
      mapFind? [(4, 10), (9, 20)] 9 ∧
    (NumberServiceImpl.Delete
        (NumberServiceImpl.Delete [(4, 10), (9, 20)] 4).1 4).2.1.success =
      false := by
  have h := delete_contract [(4, 10), (9, 20)] 4 (by rw [SortedStore]; decide)
  exact ⟨h.1, h.2.2.1, h.2.2.2.1 9 (by decide), h.2.2.2.2.2⟩

/-- Claim C6: Clear empties the store, always succeeds, and its message
reports the count observed at the moment of clearing; after inserting
5, 9, 12 it reports 3, clearing an empty store reports 0, and a List after
Clear returns count 0 and no entries. -/
theorem clear_contract :
    (∀ s : Store, NumberServiceImpl.Clear s =
      ([], { success := true,
             message := "Cleared " ++ toString s.length ++ " numbers",
             entry := none }, GrpcStatus.Ok)) ∧
    (∀ s : Store,
      (NumberServiceImpl.List (NumberServiceImpl.Clear s).1).2.1.count = 0 ∧
      (NumberServiceImpl.List (NumberServiceImpl.Clear s).1).2.1.entries = []) ∧
    (NumberServiceImpl.Clear
        (execInserts [(5, 100), (9, 101), (12, 102)])).2.1.message =
      "Cleared 3 numbers" ∧
    (NumberServiceImpl.Clear ([] : Store)).2.1.message = "Cleared 0 numbers" := by
  exact ⟨fun s => rfl, fun s => ⟨rfl, rfl⟩, by decide, by decide⟩

/-- Claim C7: Insert(42) on a store without 42, followed by List, shows
exactly one entry numbered 42 carrying the timestamp recorded at insertion;
List leaves the store unchanged, so a second List returns the identical
response. -/
theorem insert42_round_trip (s : Store) (now : Int)
    (hsort : SortedStore s) (habs : mapFind? s 42 = none) :
    (NumberServiceImpl.List
        (NumberServiceImpl.Insert s 42 now).1).2.1.entries.filter
      (fun e => e.number == 42) =
      [{ number := 42, timestamp := make_timestamp now }] ∧
    (NumberServiceImpl.List (NumberServiceImpl.Insert s 42 now).1).1 =
      (NumberServiceImpl.Insert s 42 now).1 ∧
    (NumberServiceImpl.List
        ((NumberServiceImpl.List (NumberServiceImpl.Insert s 42 now).1).1)).2.1 =
      (NumberServiceImpl.List (NumberServiceImpl.Insert s 42 now).1).2.1 := by
  refine ⟨?_, rfl, rfl⟩
  have hstore : (NumberServiceImpl.Insert s 42 now).1 = (tryEmplace s 42 now).1 := by
    rw [Insert_of_find_none s 42 now (by decide) habs]
  rw [hstore]
  have hsort2 := tryEmplace_sorted s 42 now hsort
  have hnd := sortedStore_keys_nodup _ hsort2
  have hfound := mapFind?_tryEmplace_self s 42 now habs
  have hfilter := filter_entries_of_find_some (tryEmplace s 42 now).1 42 now hnd hfound
  simpa [NumberServiceImpl.List, toEntry] using hfilter

/-- Witness for C7: inserting 42 at time 5 into the empty store and listing
shows the single entry (42, 5); a second List returns the same response. -/
theorem insert42_round_trip_witness :
    (NumberServiceImpl.List
        (NumberServiceImpl.Insert [] 42 5).1).2.1.entries.filter
      (fun e => e.number == 42) =
      [{ number := 42, timestamp := make_timestamp 5 }] ∧
    (NumberServiceImpl.List (NumberServiceImpl.Insert [] 42 5).1).1 =
      (NumberServiceImpl.Insert [] 42 5).1 ∧
    (NumberServiceImpl.List
        ((NumberServiceImpl.List (NumberServiceImpl.Insert [] 42 5).1).1)).2.1 =
      (NumberServiceImpl.List (NumberServiceImpl.Insert [] 42 5).1).2.1 :=
  insert42_round_trip [] 5 (by rw [SortedStore]; decide) rfl

/-- Claim C8: every handler, on every input and store state, returns
`grpc::Status::OK` and a well-formed application-level result whose message
is never empty — failure is expressed only through success=false plus the
message, never through the transport status. -/
theorem application_tier_total (s : Store) (num : Nat) (now : Int) :
    (NumberServiceImpl.Insert s num now).2.2 = GrpcStatus.Ok ∧
    (NumberServiceImpl.Delete s num).2.2 = GrpcStatus.Ok ∧
    (NumberServiceImpl.List s).2.2 = GrpcStatus.Ok ∧
    (NumberServiceImpl.Clear s).2.2 = GrpcStatus.Ok ∧
    0 < (NumberServiceImpl.Insert s num now).2.1.message.length ∧
    0 < (NumberServiceImpl.Delete s num).2.1.message.length ∧
    0 < (NumberServiceImpl.List s).2.1.message.length ∧
    0 < (NumberServiceImpl.Clear s).2.1.message.length := by
  refine ⟨?_, ?_, rfl, rfl, ?_, ?_, ?_, ?_⟩
  · simp only [NumberServiceImpl.Insert]
    by_cases h0 : num = 0
    · rw [if_pos h0]
    · rw [if_neg h0]
      by_cases h1 : (tryEmplace s num now).2.2 = false
      · rw [if_pos h1]
      · rw [if_neg h1]
  · simp only [NumberServiceImpl.Delete]
    by_cases h : (mapErase s num).2 ≠ 0
    · rw [if_pos h]
    · rw [if_neg h]
  · simp only [NumberServiceImpl.Insert]
    by_cases h0 : num = 0
    · rw [if_pos h0]
      show 0 < ("Only positive integers (≥1) are allowed" : String).length
      decide
    · rw [if_neg h0]
      by_cases h1 : (tryEmplace s num now).2.2 = false
      · rw [if_pos h1]
        exact append_length_pos _ _ (append_length_pos _ _ (by decide))
      · rw [if_neg h1]
        exact append_length_pos _ _
          (append_length_pos _ _ (append_length_pos _ _ (by decide)))
  · simp only [NumberServiceImpl.Delete]
    by_cases h : (mapErase s num).2 ≠ 0
    · rw [if_pos h]
      exact append_length_pos _ _ (by decide)
    · rw [if_neg h]
      exact append_length_pos _ _ (append_length_pos _ _ (by decide))
  · exact append_length_pos _ _ (by decide)
  · exact append_length_pos _ _ (append_length_pos _ _ (by decide))

/-- Claim C9: the client-side command loop refuses to send any insert or
delete argument at most 1, while the server itself accepts any absent
number at least 1 — in particular a direct Insert(1) succeeds on a store
not containing 1, though an unmodified client never sends it. -/
theorem validation_floor_asymmetry (num m : Nat) (s : Store) (now : Int)
    (hnum : num ≤ 1) (hm : 1 ≤ m) (habs : mapFind? s m = none) :
    clientInsertForwards num = false ∧
    clientDeleteForwards num = false ∧
    (NumberServiceImpl.Insert s m now).2.1.success = true := by
  refine ⟨?_, ?_, ?_⟩
  · simp [clientInsertForwards, hnum]
  · simp [clientDeleteForwards, hnum]
  · rw [Insert_of_find_none s m now (by omega) habs]

/-- Witness for C9: the client drops the argument 1, yet the server accepts
a direct Insert(1) on the empty store. -/
theorem validation_floor_asymmetry_witness :
    clientInsertForwards 1 = false ∧
    clientDeleteForwards 1 = false ∧
    (NumberServiceImpl.Insert [] 1 0).2.1.success = true :=
  validation_floor_asymmetry 1 1 [] 0 (by decide) (by decide) rfl
